import Mathlib

/-!
Shallow embedding of the dependency-resolution container in `src/src/Tree.ts`
(a TypeScript port of nject).  The `Tree` class keeps two object maps,
`_registry` and `_resolved`, and exposes `register` / `constant` / `singleton` /
`isRegistered` / `resolve` / `destroy`.  JavaScript objects used as maps are
embedded as association lists that preserve insertion order (matching
`Object.keys` enumeration order for the non-numeric string keys used here);
thrown `Error`s become an explicit error type threaded through every operation
together with the (possibly partially mutated) container state, because a JS
exception aborts the call but leaves all mutations already performed in place.

Object identity: factories construct fresh objects via
`Object.create(value.prototype || {})` (Tree.ts line 376).  We give every such
allocation a fresh numeric id drawn from an allocation counter `nextId` carried
in the state, so "two resolutions return distinct instances" and "both
instances received the same cached singleton" are expressible as (in)equality
of ids.  The `destroy` teardown delivers a `destroy` event to each cached
construction context (lines 435-436) strictly before deleting its cache entry;
the order of those deliveries is recorded in `emitLog`, which makes the
teardown order observable in the final state.
-/

namespace TreeSpec

/-- Embeds the factory functions that occur in this development.  `_findDependencies`
(Tree.ts lines 319-330) extracts a factory's dependency keys from its declared
parameter names via regular expressions over `fn.toString()`; we carry that
parameter-name list directly on the factory.  A `classLike` factory is a
constructor-style function (like `TestPlugin` in the repository's Tree spec):
invoked via `value.apply(context, resolvedDeps)` it assigns its arguments to
`this` and returns `undefined`, so line 383 makes the construction context the
resolved value.  `protoHasEmit` records whether `Object.create(value.prototype)`
yields an object supporting `emit` / `removeAllListeners` (true only when the
registered class provides event-emitter methods; plain classes such as
`TestPlugin` do not). -/
inductive FactoryCode where
  | classLike (params : List String) (protoHasEmit : Bool)
deriving DecidableEq, Repr

/-- Embeds the JavaScript values flowing through the container: `undefined`,
primitive payloads used as constants, objects with an allocation id (fields
hold the dependency values the object was constructed with; `hasEmit` is its
event-emitter capability), and function values. -/
inductive Val where
  | undef
  | prim (n : Nat)
  | obj (id : Nat) (fields : List Val) (hasEmit : Bool)
  | closure (code : FactoryCode)

/-- Embeds the `value` argument of `register`: either a callable
(`typeof value === 'function'`) or not. -/
inductive RegValue where
  | fn (code : FactoryCode)
  | notCallable (v : Val)

/-- A registration record, Tree.ts lines 190-195. -/
structure Record where
  dependencies : List String
  isConstant : Bool
  isSingleton : Bool
  value : RegValue

/-- A resolved-cache entry, Tree.ts lines 393-396. -/
structure ResolvedEntry where
  context : Val
  value : Val

/-- The errors the source can throw.  `typeError` covers runtime `TypeError`s
raised by the JS engine itself (calling a non-callable), with the message text
identifying the failing call site. -/
inductive Err where
  | invalidOptions
  | notAFactory (key : String)
  | unregisteredDependency (key : String) (path : List String)
  | circularDependency (path : List String)
  | typeError (what : String)
deriving DecidableEq, Repr

/-- Embeds `buildPathErrorMsg` (Tree.ts lines 56-68): append the path joined
with " -> " after the message. -/
def buildPathErrorMsg (msg : String) (path : List String) : String :=
  (msg ++ "\n    ") ++ String.intercalate " -> " path

/-- The message text of each thrown error, from the `new Error(...)` sites in
Tree.ts (lines 163, 184, 342-343, 347-348). -/
def errMessage : Err → String
  | .invalidOptions => "Registration options must be a plain object"
  | .notAFactory key => "Cannot register non-function as factory: " ++ key
  | .unregisteredDependency key p =>
      buildPathErrorMsg ("Detected unregistered dependency `" ++ key ++ "`") p
  | .circularDependency p =>
      buildPathErrorMsg
        "Circular dependency detected! Please check the following dependencies to correct the problem"
        p
  | .typeError what => what

/-- Association-list lookup, embedding property access `m[key]` on a JS object
used as a map (`undefined`, i.e. `none`, when absent). -/
def lookupA {α : Type} : List (String × α) → String → Option α
  | [], _ => none
  | (k, v) :: rest, key => if k = key then some v else lookupA rest key

/-- Association-list update, embedding `m[key] = v`: overwriting an existing
key keeps its enumeration position, a new key is appended (JS insertion
order for string keys). -/
def insertA {α : Type} : List (String × α) → String → α → List (String × α)
  | [], key, v => [(key, v)]
  | (k, w) :: rest, key, v =>
      if k = key then (k, v) :: rest else (k, w) :: insertA rest key v

/-- Association-list removal, embedding `delete m[key]`. -/
def eraseA {α : Type} : List (String × α) → String → List (String × α)
  | [], _ => []
  | (k, w) :: rest, key => if k = key then rest else (k, w) :: eraseA rest key

/-- The container state: the two maps of the `Tree` class plus two pieces of
instrumentation that make JS-observable effects explicit — `nextId`, the
allocation counter backing object identity, and `emitLog`, the ordered record
of `destroy` events delivered to cached contexts by `_destroy`. -/
structure Tree where
  registry : List (String × Record) := []
  resolved : List (String × ResolvedEntry) := []
  nextId : Nat := 0
  emitLog : List String := []

/-- A freshly constructed container (`new Tree()`). -/
def emptyTree : Tree := {}

/-- Embeds `countBy(p)[key]` (Tree.ts lines 14-22, used at line 346): the
number of occurrences of `key` in the path `p`. -/
def countOcc (p : List String) (key : String) : Nat :=
  (p.filter (fun x => x = key)).length

/-- `Tree.isRegistered` (lines 241-243): a registration record is an object,
hence truthy, so `!!this._registry[key]` tests presence. -/
def Tree.isRegistered (t : Tree) (key : String) : Bool :=
  (lookupA t.registry key).isSome

/-- The resolved value of a constant registration is the stored value verbatim
(line 364). -/
def RegValue.asVal : RegValue → Val
  | .fn code => .closure code
  | .notCallable v => v

/-- The body of the dependency loop at Tree.ts lines 369-371:
`dependencies.forEach(dependency => resolvedDeps.push(this._resolve(dependency, p)))`.
A thrown error propagates out (later iterations leave the state untouched);
otherwise the recursively resolved value is pushed onto the accumulator. -/
def pushStep (g : Tree → String → Except Err Val × Tree)
    (acc : Except Err (List Val) × Tree) (dependency : String) :
    Except Err (List Val) × Tree :=
  match acc with
  | (.error e, t1) => (.error e, t1)
  | (.ok vs, t1) =>
    match g t1 dependency with
    | (.error e, t2) => (.error e, t2)
    | (.ok v, t2) => (.ok (vs ++ [v]), t2)

/-- Embeds `Tree._resolve` (lines 335-403).  `fuel` bounds the recursion depth
(the JS call stack); along any path every frame that recurses has pushed a
distinct registered key, so `registry.length + 1` frames — the budget the
public `resolve` supplies — can never be exhausted, and fuel 0 models the
engine's stack-overflow `RangeError`.  The dependency loop (lines 369-371) is
the fold of `pushStep`. -/
def resolveGo : Nat → Tree → String → List String → Except Err Val × Tree
  | 0, t, _, _ => (.error (.typeError "Maximum call stack size exceeded"), t)
  | fuel + 1, t, key, path =>
    -- p = path.slice(0); p.push(key)  (lines 337-339)
    let p := path ++ [key]
    match lookupA t.registry key with
    | none => (.error (.unregisteredDependency key p), t)
    | some config =>
      if countOcc p key > 1 then
        (.error (.circularDependency p), t)
      else
        match lookupA t.resolved key with
        | some r =>
          -- lines 398-402: already resolved, retrieve from cache
          (.ok r.value, t)
        | none =>
          if config.isConstant then
            -- line 364: resolvedValue = value; the context stays the plain
            -- `{}` from line 357 (no emitter capability).  We materialize that
            -- allocation only when it survives into the cache.
            if config.isSingleton then
              (.ok config.value.asVal,
               { t with
                  resolved := insertA t.resolved key
                    ⟨.obj t.nextId [] false, config.value.asVal⟩,
                  nextId := t.nextId + 1 })
            else
              (.ok config.value.asVal, t)
          else
            match config.dependencies.foldl
                (pushStep (fun t1 dependency => resolveGo fuel t1 dependency p))
                (.ok [], t) with
            | (.error e, t1) => (.error e, t1)
            | (.ok resolvedDeps, t1) =>
              match config.value with
              | .notCallable _ =>
                -- `value.apply` on a non-callable: engine TypeError.  This
                -- state is unreachable through `register`, which guards
                -- non-constant values with the typeof check.
                (.error (.typeError "value.apply is not a function"), t1)
              | .fn (.classLike _ protoHasEmit) =>
                -- line 376: context = Object.create(value.prototype || {});
                -- line 377: value.apply(context, resolvedDeps) assigns the
                -- arguments to `this` and returns undefined, so line 383
                -- makes the context the resolved value.
                let context := Val.obj t1.nextId resolvedDeps protoHasEmit
                let t2 := { t1 with nextId := t1.nextId + 1 }
                if config.isSingleton then
                  (.ok context,
                   { t2 with resolved := insertA t2.resolved key ⟨context, context⟩ })
                else
                  (.ok context, t2)

/-- The single-key form of the public `Tree.resolve` (lines 258-270; the
`key === undefined` resolve-all form just folds this over every registered
key and is not needed by the claims). -/
def Tree.resolve (t : Tree) (key : String) : Except Err Val × Tree :=
  resolveGo (t.registry.length + 1) t key []

/-- The body of the iteration loops in `_destroy` (lines 429-431) and the
destroy-all branch of the public `destroy` (lines 290-292): apply the teardown
`g` to each key in turn, a thrown error propagating out and aborting the
remaining iterations. -/
def seqStep (g : Tree → String → Except Err Unit × Tree)
    (acc : Except Err Unit × Tree) (key : String) : Except Err Unit × Tree :=
  match acc with
  | (.error e, t1) => (.error e, t1)
  | (.ok _, t1) => g t1 key

/-- The dependents computation of `_destroy` (Tree.ts lines 417-426):
`Object.keys(this._registry)` mapped to the key when its record's dependency
list contains `key` and to `null` otherwise, then `.filter(depName => !!depName)`.
The truthiness filter drops the `null`s — and also drops a dependent whose own
registration key is the falsy empty string. -/
def dependsOnKey (registry : List (String × Record)) (key : String) : List String :=
  ((registry.map Prod.fst).filter fun depName =>
    match lookupA registry depName with
    | some config => config.dependencies.contains key
    | none => false).filter fun depName => !(depName == "")

/-- Embeds `Tree._destroy` (lines 409-439).  The dependents loop (lines
417-431) recursively destroys every registered key whose dependency list
contains `key` before `key` itself is torn down; then lines 433-437 deliver the
`destroy` event to the construction context captured at entry and delete the
cache entry.  When the context does not support `emit` (a plain `{}` or a class
without emitter methods) the engine raises a TypeError at line 435 and the
entry is *not* removed.  `fuel` bounds the recursion depth as in `resolveGo`. -/
def destroyGo : Nat → Tree → String → Except Err Unit × Tree
  | 0, t, _ => (.error (.typeError "Maximum call stack size exceeded"), t)
  | fuel + 1, t, key =>
    match lookupA t.resolved key with
    | none => (.ok (), t)
    | some resolvedEntry =>
      match (dependsOnKey t.registry key).foldl
          (seqStep (fun t1 depName => destroyGo fuel t1 depName))
          (.ok (), t) with
      | (.error e, t1) => (.error e, t1)
      | (.ok _, t1) =>
        match resolvedEntry.context with
        | .obj _ _ true =>
          (.ok (),
           { t1 with
              resolved := eraseA t1.resolved key,
              emitLog := t1.emitLog ++ [key] })
        | _ => (.error (.typeError "context.emit is not a function"), t1)

/-- JS truthiness of the `key` argument of the public `destroy` (line 285):
`undefined` and the empty string are falsy, every other string is truthy. -/
def jsTruthyKey : Option String → Bool
  | none => false
  | some s => !(s == "")

/-- The public `Tree.destroy` (lines 282-294): a truthy key destroys that key;
otherwise every registered key is destroyed in enumeration order (a thrown
error aborting the loop). -/
def Tree.destroy (t : Tree) (key : Option String) : Except Err Unit × Tree :=
  let keys := t.registry.map Prod.fst
  if jsTruthyKey key then
    destroyGo (t.registry.length + 1) t (key.getD "")
  else
    keys.foldl
      (seqStep (fun t1 k => destroyGo (t1.registry.length + 1) t1 k))
      (.ok (), t)

/-- The `aggregateOn` option as passed by callers: absent, a single key, or an
array of keys (line 128: `{String|Array[String]}`). -/
inductive AggOn where
  | missing
  | single (s : String)
  | arr (ss : List String)
deriving DecidableEq, Repr

/-- A plain-object `opts` argument (lines 165-167): missing fields default to
the falsy `undefined`. -/
structure Opts where
  aggregateOn : AggOn := .missing
  constant : Bool := false
  singleton : Bool := false
deriving DecidableEq, Repr

/-- The `opts` argument as passed: `undefined`, a plain object, or a non-plain
object (e.g. an array), which fails the `toString.call(opts)` check. -/
inductive OptsArg where
  | undef
  | plain (o : Opts)
  | nonPlain
deriving DecidableEq, Repr

/-- Lines 161-163: `opts = opts || {}` then the plain-object check. -/
def normalizeOpts : OptsArg → Option Opts
  | .undef => some {}
  | .plain o => some o
  | .nonPlain => none

/-- Truthiness of `opts.aggregateOn` at line 198: `undefined` and the empty
string are falsy; any array (even empty) is truthy. -/
def aggTruthy : AggOn → Bool
  | .missing => false
  | .single s => !(s == "")
  | .arr _ => true

/-- `typeof value === 'function'` (line 183). -/
def RegValue.isFunction : RegValue → Bool
  | .fn _ => true
  | .notCallable _ => false

/-- `_findDependencies` (lines 319-330) on a callable: the declared parameter
names, trimmed, empty parameter lists giving `[]`. -/
def findDependencies : RegValue → List String
  | .fn (.classLike ps _) => ps
  | .notCallable _ => []

/-- Embeds the string-key form of `Tree.register` (lines 139-230; the bulk
object-key form at lines 145-158 just recurses per pair and is not needed by
the claims).  Steps, in source order: normalize/validate options; on a naming
conflict call the public `destroy(key)` (line 177 — note a thrown teardown
error propagates with the partial state); non-constant values must be callable
(lines 182-187) or the NotAFactory error is thrown; install the record
(lines 190-195); finally, if `aggregateOn` is truthy, line 204 executes
`aggregateOn.forEach(aggregateOn, aggregateKey => {...})` — the *array itself*
is passed as `Array.prototype.forEach`'s callback argument, which is not
callable, so the engine throws a TypeError before any aggregator handling runs
(the synthesis/append logic at lines 205-226 is unreachable). -/
def Tree.register (t : Tree) (key : String) (value : RegValue) (opts : OptsArg) :
    Except Err Unit × Tree :=
  match normalizeOpts opts with
  | none => (.error .invalidOptions, t)
  | some o =>
    match (if t.isRegistered key then t.destroy (some key) else (.ok (), t) :
        Except Err Unit × Tree) with
    | (.error e, t1) => (.error e, t1)
    | (.ok _, t1) =>
      if !o.constant && !value.isFunction then
        (.error (.notAFactory key), t1)
      else
        let dependencies := if o.constant then [] else findDependencies value
        let t2 := { t1 with
          registry := insertA t1.registry key
            ⟨dependencies, o.constant, o.singleton, value⟩ }
        if aggTruthy o.aggregateOn then
          (.error (.typeError "aggregateOn.forEach: callback is not a function"), t2)
        else
          (.ok (), t2)

/-- Embeds `clone` (lines 44-54) as applied to an options argument: own
enumerable properties are copied into a fresh plain object, so a plain object
is copied field-for-field and anything else yields an options object whose
three recognized fields are all `undefined`. -/
def cloneOpts : OptsArg → Opts
  | .plain o => o
  | _ => {}

/-- `Tree.constant` (lines 97-102): register with `constant` forced to true. -/
def Tree.constant (t : Tree) (key : String) (value : RegValue) (opts : OptsArg) :
    Except Err Unit × Tree :=
  t.register key value (.plain { cloneOpts opts with constant := true })

/-- `Tree.singleton` (lines 104-109): register with `singleton` forced to
true. -/
def Tree.singleton (t : Tree) (key : String) (value : RegValue) (opts : OptsArg) :
    Except Err Unit × Tree :=
  t.register key value (.plain { cloneOpts opts with singleton := true })

end TreeSpec


/-! ## Scenario containers used by witnesses and counterexamples -/

namespace TreeSpec

/-- A container with the singleton `errorParser` registered and already
resolved once (its cache holds the instance with allocation id 0). -/
def parserCached : Tree :=
  ((emptyTree.singleton "errorParser" (.fn (.classLike [] false)) .undef).2.resolve
    "errorParser").2

/-- A constant registered with `singleton: true` and resolved once; its cached
construction context is the plain `{}` from Tree.ts line 357, which has no
`emit` method. -/
def constSingletonTree : Tree :=
  ((emptyTree.register "c" (.notCallable (.prim 5))
      (.plain { constant := true, singleton := true })).2.resolve "c").2

/-- A singleton factory (a class providing emitter teardown methods)
registered under `a` and resolved once. -/
def resolvedSingletonTree : Tree :=
  ((emptyTree.singleton "a" (.fn (.classLike [] true)) .undef).2.resolve "a").2

/-- Factories `A(B)` and `B(A)` registered on a fresh container. -/
def treeAB : Tree :=
  ((emptyTree.register "A" (.fn (.classLike ["B"] false)) .undef).2.register
      "B" (.fn (.classLike ["A"] false)) .undef).2

/-- Singletons `K` and `D(K)` (classes with emitter teardown methods), with
`D` resolved, so both `K` (id 0) and `D` (id 1) are cached. -/
def cascadeTree : Tree :=
  (((emptyTree.singleton "K" (.fn (.classLike [] true)) .undef).2.singleton
      "D" (.fn (.classLike ["K"] true)) .undef).2.resolve "D").2

/-- As `cascadeTree`, but the registered classes are plain (no emitter
methods on their prototypes), like `TestPlugin` in the repository's tests. -/
def cascadeTreeNoEmit : Tree :=
  (((emptyTree.singleton "K" (.fn (.classLike [] false)) .undef).2.singleton
      "D" (.fn (.classLike ["K"] false)) .undef).2.resolve "D").2

/-- Singletons registered under the empty-string key and under `s` (emitter
capable), both resolved, so the cache holds `""` (id 0) and `s` (id 1). -/
def emptyKeyTree : Tree :=
  ((((emptyTree.singleton "" (.fn (.classLike [] true)) .undef).2.singleton
      "s" (.fn (.classLike [] true)) .undef).2.resolve "").2.resolve "s").2

/-- The container of the repository's Tree-spec scenario: the non-singleton
factory `errorPlugin` depending on the singleton `errorParser`. -/
def pluginTree : Tree :=
  ((emptyTree.register "errorPlugin" (.fn (.classLike ["errorParser"] false))
      .undef).2.singleton "errorParser" (.fn (.classLike [] false)) .undef).2

/-- `pluginTree` at the moment `errorParser` has been resolved (and cached,
with allocation id 0) while resolving `errorPlugin` for the first time. -/
def pluginTreeMid : Tree :=
  { registry := pluginTree.registry,
    resolved := [("errorParser", ⟨.obj 0 [] false, .obj 0 [] false⟩)],
    nextId := 1,
    emitLog := [] }

/-! ## Shared lemmas -/

theorem countOcc_single (k : String) : countOcc [k] k = 1 := by
  simp [countOcc]

/-- A `seqStep` fold of teardowns that each preserve the registry preserves
the registry. -/
theorem foldl_seqStep_registry (g : Tree → String → Except Err Unit × Tree)
    (hg : ∀ t d, ((g t d).2).registry = t.registry) :
    ∀ (l : List String) (acc : Except Err Unit × Tree),
      (((l.foldl (seqStep g) acc)).2).registry = (acc.2).registry := by
  intro l
  induction l with
  | nil => intro acc; rfl
  | cons d ds ih =>
    intro acc
    rw [List.foldl_cons, ih]
    rcases acc with ⟨e | u, t1⟩
    · rfl
    · exact hg t1 d

/-- `_destroy` never touches the registry, whatever the fuel. -/
theorem destroyGo_registry : ∀ (fuel : Nat) (t : Tree) (key : String),
    ((destroyGo fuel t key).2).registry = t.registry := by
  intro fuel
  induction fuel with
  | zero => intro t key; rfl
  | succ n ih =>
    intro t key
    rw [destroyGo]
    cases h : lookupA t.resolved key with
    | none => rfl
    | some entry =>
      simp only
      split
      next e t1 heq =>
        have h3 := foldl_seqStep_registry (fun t1 depName => destroyGo n t1 depName)
          (fun t d => ih t d) (dependsOnKey t.registry key) (.ok (), t)
        rw [heq] at h3
        exact h3
      next u t1 heq =>
        have h3 := foldl_seqStep_registry (fun t1 depName => destroyGo n t1 depName)
          (fun t d => ih t d) (dependsOnKey t.registry key) (.ok (), t)
        rw [heq] at h3
        split <;> exact h3

/-- The public `destroy` never touches the registry. -/
theorem destroy_registry (t : Tree) (key : Option String) :
    ((t.destroy key).2).registry = t.registry := by
  unfold Tree.destroy
  simp only
  split
  · exact destroyGo_registry _ _ _
  · exact foldl_seqStep_registry (fun t1 k => destroyGo (t1.registry.length + 1) t1 k)
      (fun t1 k => destroyGo_registry _ t1 k) _ _

/-- `destroy` on a truthy key with no resolved-cache entry is an error-free
no-op. -/
theorem destroy_unresolved_noop (t : Tree) (k : String) (hk : ¬k = "")
    (h : lookupA t.resolved k = none) :
    t.destroy (some k) = (.ok (), t) := by
  unfold Tree.destroy
  have ht : jsTruthyKey (some k) = true := by
    simp [jsTruthyKey, hk]
  rw [if_pos ht]
  rw [show (some k).getD "" = k from rfl]
  rw [destroyGo]
  simp [h]

theorem lookupA_mem {α : Type} (l : List (String × α)) (k : String) (v : α)
    (h : lookupA l k = some v) : k ∈ l.map Prod.fst := by
  induction l with
  | nil => simp [lookupA] at h
  | cons p rest ih =>
    obtain ⟨k', v'⟩ := p
    by_cases hk : k' = k
    · subst hk; simp
    · rw [lookupA, if_neg hk] at h
      simp [ih h]

/-- Two distinct registered keys force at least two registry entries (fuel
arithmetic for the cycle claim). -/
theorem two_registered_length {α : Type} (l : List (String × α)) (a b : String) (va vb : α)
    (hab : ¬a = b) (ha : lookupA l a = some va) (hb : lookupA l b = some vb) :
    2 ≤ l.length := by
  have ha' := lookupA_mem l a va ha
  have hb' := lookupA_mem l b vb hb
  have hm : b ∈ (l.map Prod.fst).erase a := (List.mem_erase_of_ne (Ne.symm hab)).2 hb'
  have h1 : 0 < ((l.map Prod.fst).erase a).length := List.length_pos_of_mem hm
  have h2 : ((l.map Prod.fst).erase a).length = (l.map Prod.fst).length - 1 :=
    List.length_erase_of_mem ha'
  have h3 : (l.map Prod.fst).length = l.length := by simp
  omega

theorem lookupA_insertA_self {α : Type} (l : List (String × α)) (k : String) (v : α) :
    lookupA (insertA l k v) k = some v := by
  induction l with
  | nil => simp [insertA, lookupA]
  | cons p rest ih =>
    obtain ⟨k', w⟩ := p
    by_cases hk : k' = k
    · subst hk
      simp [insertA, lookupA]
    · simp [insertA, lookupA, hk, ih]

theorem lookupA_insertA_ne {α : Type} (l : List (String × α)) (k d : String) (v : α)
    (hd : ¬d = k) : lookupA (insertA l k v) d = lookupA l d := by
  have hkd : ¬k = d := fun h => hd h.symm
  induction l with
  | nil => simp [insertA, lookupA, hkd]
  | cons p rest ih =>
    obtain ⟨k', w⟩ := p
    by_cases hk : k' = k
    · subst hk
      simp [insertA, lookupA, hkd]
    · by_cases hk' : k' = d
      · subst hk'
        simp [insertA, lookupA, hk]
      · simp [insertA, lookupA, hk, hk', ih]

theorem lookupA_eraseA_ne {α : Type} (l : List (String × α)) (k d : String)
    (hd : ¬d = k) : lookupA (eraseA l k) d = lookupA l d := by
  have hkd : ¬k = d := fun h => hd h.symm
  induction l with
  | nil => rfl
  | cons p rest ih =>
    obtain ⟨k', w⟩ := p
    by_cases hk : k' = k
    · subst hk
      simp [eraseA, lookupA, hkd]
    · by_cases hk' : k' = d
      · subst hk'
        simp [eraseA, lookupA, hk]
      · simp [eraseA, lookupA, hk, hk', ih]

theorem lookupA_eraseA_none {α : Type} (l : List (String × α)) (k d : String)
    (h : lookupA l d = none) : lookupA (eraseA l k) d = none := by
  induction l with
  | nil => rfl
  | cons p rest ih =>
    obtain ⟨k', w⟩ := p
    by_cases hk' : k' = d
    · rw [lookupA, if_pos hk'] at h
      exact absurd h (by simp)
    · rw [lookupA, if_neg hk'] at h
      by_cases hk : k' = k
      · simp [eraseA, hk, h]
      · simp [eraseA, lookupA, hk, hk', ih h]

theorem lookupA_eq_none_of_not_mem {α : Type} (l : List (String × α)) (k : String)
    (h : ¬k ∈ l.map Prod.fst) : lookupA l k = none := by
  induction l with
  | nil => rfl
  | cons p rest ih =>
    obtain ⟨k', w⟩ := p
    simp only [List.map_cons, List.mem_cons] at h
    push_neg at h
    rw [lookupA, if_neg (fun he => h.1 he.symm)]
    exact ih h.2

theorem mem_map_fst_eraseA {α : Type} (l : List (String × α)) (k d : String)
    (h : d ∈ (eraseA l k).map Prod.fst) : d ∈ l.map Prod.fst := by
  induction l with
  | nil => exact absurd h (by simp [eraseA] at h ⊢)
  | cons p rest ih =>
    obtain ⟨k', w⟩ := p
    by_cases hk : k' = k
    · simp only [eraseA, if_pos hk] at h
      simp [h]
    · simp only [eraseA, if_neg hk, List.map_cons, List.mem_cons] at h ⊢
      rcases h with h | h
      · exact Or.inl h
      · exact Or.inr (ih h)

theorem nodup_eraseA {α : Type} (l : List (String × α)) (k : String)
    (h : (l.map Prod.fst).Nodup) : ((eraseA l k).map Prod.fst).Nodup := by
  induction l with
  | nil => simp [eraseA]
  | cons p rest ih =>
    obtain ⟨k', w⟩ := p
    simp only [List.map_cons, List.nodup_cons] at h
    by_cases hk : k' = k
    · simp only [eraseA, if_pos hk]
      exact h.2
    · simp only [eraseA, if_neg hk, List.map_cons, List.nodup_cons]
      exact ⟨fun hm => h.1 (mem_map_fst_eraseA rest k k' hm), ih h.2⟩

theorem lookupA_eraseA_self {α : Type} (l : List (String × α)) (k : String)
    (h : (l.map Prod.fst).Nodup) : lookupA (eraseA l k) k = none := by
  induction l with
  | nil => rfl
  | cons p rest ih =>
    obtain ⟨k', w⟩ := p
    simp only [List.map_cons, List.nodup_cons] at h
    by_cases hk : k' = k
    · simp only [eraseA, if_pos hk]
      subst hk
      exact lookupA_eq_none_of_not_mem rest k' h.1
    · simp [eraseA, lookupA, hk, ih h.2]

/-- A `seqStep` fold started from a thrown error returns that error and state
unchanged (a JS exception aborts the remaining iterations). -/
theorem foldl_seqStep_error (g : Tree → String → Except Err Unit × Tree)
    (l : List String) (e : Err) (t0 : Tree) :
    l.foldl (seqStep g) (.error e, t0) = (.error e, t0) := by
  induction l with
  | nil => rfl
  | cons d ds ih => rw [List.foldl_cons]; exact ih

/-- A `seqStep` fold of teardowns that each preserve a state predicate
preserves it. -/
theorem foldl_seqStep_pres (P : Tree → Prop) (g : Tree → String → Except Err Unit × Tree)
    (hg : ∀ t d, P t → P ((g t d).2)) :
    ∀ (l : List String) (acc : Except Err Unit × Tree),
      P acc.2 → P ((l.foldl (seqStep g) acc).2) := by
  intro l
  induction l with
  | nil => intro acc h; exact h
  | cons d ds ih =>
    intro acc h
    rw [List.foldl_cons]
    refine ih _ ?_
    rcases acc with ⟨e | u, t1⟩
    · exact h
    · exact hg t1 d h

/-- A `seqStep` fold of teardowns that each only append to the emit log only
appends to the emit log. -/
theorem foldl_seqStep_emit_ext (g : Tree → String → Except Err Unit × Tree)
    (hg : ∀ t d, ∃ a, ((g t d).2).emitLog = t.emitLog ++ a) :
    ∀ (l : List String) (acc : Except Err Unit × Tree),
      ∃ a, ((l.foldl (seqStep g) acc).2).emitLog = (acc.2).emitLog ++ a := by
  intro l
  induction l with
  | nil => intro acc; exact ⟨[], by simp⟩
  | cons d ds ih =>
    intro acc
    rw [List.foldl_cons]
    rcases acc with ⟨e | u, t1⟩
    · exact ih _
    · obtain ⟨a1, ha1⟩ := hg t1 d
      obtain ⟨a2, ha2⟩ := ih (seqStep g (.ok u, t1) d)
      refine ⟨a1 ++ a2, ?_⟩
      rw [ha2]
      show ((g t1 d).2).emitLog ++ a2 = t1.emitLog ++ (a1 ++ a2)
      rw [ha1, List.append_assoc]

/-- State evolution along `_resolve`: the registry is preserved, and a
registered non-singleton key absent from the resolved cache stays absent (the
only cache writes are singleton stores keyed by the resolving key's own
record). -/
def ROk (t t' : Tree) : Prop :=
  t'.registry = t.registry ∧
  ∀ a ca, lookupA t.registry a = some ca → ca.isSingleton = false →
    lookupA t.resolved a = none → lookupA t'.resolved a = none

theorem ROk.refl (t : Tree) : ROk t t := ⟨rfl, fun _ _ _ _ h => h⟩

theorem ROk.trans {t t1 t2 : Tree} (h1 : ROk t t1) (h2 : ROk t1 t2) : ROk t t2 := by
  refine ⟨h2.1.trans h1.1, fun a ca hreg hs hres => ?_⟩
  exact h2.2 a ca (h1.1 ▸ hreg) hs (h1.2 a ca hreg hs hres)

/-- A `pushStep` fold of resolutions that each satisfy `ROk` satisfies it. -/
theorem foldl_pushStep_R (g : Tree → String → Except Err Val × Tree)
    (hg : ∀ t d, ROk t ((g t d).2)) :
    ∀ (l : List String) (acc : Except Err (List Val) × Tree),
      ROk acc.2 ((l.foldl (pushStep g) acc).2) := by
  intro l
  induction l with
  | nil => intro acc; exact ROk.refl _
  | cons d ds ih =>
    intro acc
    rw [List.foldl_cons]
    refine ROk.trans ?_ (ih (pushStep g acc d))
    rcases acc with ⟨e | vs, t1⟩
    · exact ROk.refl _
    · show ROk t1 ((pushStep g (.ok vs, t1) d).2)
      unfold pushStep
      simp only
      rcases hgv : g t1 d with ⟨r | v, t2⟩
      · have := hg t1 d
        rw [hgv] at this
        exact this
      · have := hg t1 d
        rw [hgv] at this
        exact this

/-- `_resolve` satisfies `ROk`: it never touches the registry, and it never
creates a cache entry for a registered non-singleton key. -/
theorem resolveGo_R : ∀ (fuel : Nat) (t : Tree) (k : String) (p : List String),
    ROk t ((resolveGo fuel t k p).2) := by
  intro fuel
  induction fuel with
  | zero => intro t k p; exact ROk.refl t
  | succ n ih =>
    intro t k p
    cases hreg : lookupA t.registry k with
    | none =>
      rw [resolveGo]
      simp only [hreg]
      exact ROk.refl t
    | some config =>
      cases hres : lookupA t.resolved k with
      | some r =>
        rw [resolveGo]
        simp only [hreg, hres]
        split
        · exact ROk.refl t
        · exact ROk.refl t
      | none =>
        rw [resolveGo]
        simp only [hreg, hres]
        split
        · exact ROk.refl t
        · split
          next hconst =>
            split
            next hsing =>
              refine ⟨rfl, fun a ca hra hsa hresa => ?_⟩
              by_cases hak : a = k
              · subst hak
                rw [hreg] at hra
                injection hra with hca
                subst hca
                rw [hsing] at hsa
                cases hsa
              · show lookupA (insertA t.resolved k _) a = none
                rw [lookupA_insertA_ne _ _ _ _ hak]
                exact hresa
            next hsing => exact ROk.refl t
          next hconst =>
            split
            next e t1 heq =>
              have hfold := foldl_pushStep_R
                (fun t1 dependency => resolveGo n t1 dependency (p ++ [k]))
                (fun t2 d => ih t2 d (p ++ [k])) config.dependencies (.ok [], t)
              rw [heq] at hfold
              exact hfold
            next vs t1 heq =>
              have hfold := foldl_pushStep_R
                (fun t1 dependency => resolveGo n t1 dependency (p ++ [k]))
                (fun t2 d => ih t2 d (p ++ [k])) config.dependencies (.ok [], t)
              rw [heq] at hfold
              split
              · exact hfold
              next ps he =>
                split
                next hsing =>
                  refine ROk.trans hfold ⟨rfl, fun a ca hra hsa hresa => ?_⟩
                  by_cases hak : a = k
                  · subst hak
                    rw [hfold.1, hreg] at hra
                    injection hra with hca
                    subst hca
                    rw [hsing] at hsa
                    cases hsa
                  · show lookupA (insertA t1.resolved k _) a = none
                    rw [lookupA_insertA_ne _ _ _ _ hak]
                    exact hresa
                next hsing =>
                  exact ROk.trans hfold ⟨rfl, fun _ _ _ _ h => h⟩

/-- When a *singleton* key's resolution succeeds, the key afterwards has a
resolved-cache entry whose value is the returned value (either it was already
cached, or the post-recursion store at Tree.ts lines 393-396 just installed
it). -/
theorem resolveGo_singleton_caches (m : Nat) (t : Tree) (B : String) (p : List String)
    (cB : Record) (b : Val) (t1 : Tree)
    (hB : lookupA t.registry B = some cB) (hBs : cB.isSingleton = true)
    (hrun : resolveGo (m + 1) t B p = (.ok b, t1)) :
    ∃ e : ResolvedEntry, lookupA t1.resolved B = some e ∧ e.value = b := by
  cases hres : lookupA t.resolved B with
  | some r =>
    rw [resolveGo] at hrun
    simp only [hB, hres] at hrun
    split at hrun
    · simp at hrun
    · injection hrun with h1 h2
      injection h1 with h1
      subst h2
      exact ⟨r, hres, h1⟩
  | none =>
    rw [resolveGo] at hrun
    simp only [hB, hres, hBs, if_true] at hrun
    split at hrun
    · simp at hrun
    · split at hrun
      next hconst =>
        injection hrun with h1 h2
        injection h1 with h1
        subst h1
        subst h2
        exact ⟨⟨.obj t.nextId [] false, cB.value.asVal⟩,
          lookupA_insertA_self _ _ _, rfl⟩
      next hconst =>
        split at hrun
        next e t2 heq => simp at hrun
        next vs t2 heq =>
          split at hrun
          · simp at hrun
          next ps he =>
            injection hrun with h1 h2
            injection h1 with h1
            subst h1
            subst h2
            exact ⟨⟨.obj t2.nextId vs ps, .obj t2.nextId vs ps⟩,
              lookupA_insertA_self _ _ _, rfl⟩

/-- `_destroy` never creates resolved-cache entries: a key absent from the
cache stays absent. -/
theorem destroyGo_resolved_none : ∀ (fuel : Nat) (t : Tree) (k d : String),
    lookupA t.resolved d = none → lookupA ((destroyGo fuel t k).2).resolved d = none := by
  intro fuel
  induction fuel with
  | zero => intro t k d h; exact h
  | succ n ih =>
    intro t k d h
    cases hres : lookupA t.resolved k with
    | none =>
      rw [destroyGo]
      simp only [hres]
      exact h
    | some e =>
      rw [destroyGo]
      simp only [hres]
      have hfold := foldl_seqStep_pres (fun t2 => lookupA t2.resolved d = none)
        (fun t1 depName => destroyGo n t1 depName)
        (fun t2 d' h' => ih t2 d' d h') (dependsOnKey t.registry k) (.ok (), t) h
      split
      next er t1 heq =>
        rw [heq] at hfold
        exact hfold
      next u t1 heq =>
        rw [heq] at hfold
        split
        · exact lookupA_eraseA_none _ _ _ hfold
        · exact hfold

/-- `_destroy` preserves duplicate-freedom of the resolved-cache keys. -/
theorem destroyGo_nodup : ∀ (fuel : Nat) (t : Tree) (k : String),
    (t.resolved.map Prod.fst).Nodup →
    (((destroyGo fuel t k).2).resolved.map Prod.fst).Nodup := by
  intro fuel
  induction fuel with
  | zero => intro t k h; exact h
  | succ n ih =>
    intro t k h
    cases hres : lookupA t.resolved k with
    | none =>
      rw [destroyGo]
      simp only [hres]
      exact h
    | some e =>
      rw [destroyGo]
      simp only [hres]
      have hfold := foldl_seqStep_pres (fun t2 => (t2.resolved.map Prod.fst).Nodup)
        (fun t1 depName => destroyGo n t1 depName)
        (fun t2 d' h' => ih t2 d' h') (dependsOnKey t.registry k) (.ok (), t) h
      split
      next er t1 heq =>
        rw [heq] at hfold
        exact hfold
      next u t1 heq =>
        rw [heq] at hfold
        split
        · exact nodup_eraseA _ _ hfold
        · exact hfold

/-- `_destroy` only appends to the emit log. -/
theorem destroyGo_emit_ext : ∀ (fuel : Nat) (t : Tree) (k : String),
    ∃ a, ((destroyGo fuel t k).2).emitLog = t.emitLog ++ a := by
  intro fuel
  induction fuel with
  | zero => intro t k; exact ⟨[], by simp [destroyGo]⟩
  | succ n ih =>
    intro t k
    cases hres : lookupA t.resolved k with
    | none =>
      rw [destroyGo]
      simp only [hres]
      exact ⟨[], by simp⟩
    | some e =>
      rw [destroyGo]
      simp only [hres]
      have hfold := foldl_seqStep_emit_ext
        (fun t1 depName => destroyGo n t1 depName)
        (fun t2 d' => ih t2 d') (dependsOnKey t.registry k) (.ok (), t)
      obtain ⟨a, ha⟩ := hfold
      split
      next er t1 heq =>
        rw [heq] at ha
        simp only at ha
        exact ⟨a, ha⟩
      next u t1 heq =>
        rw [heq] at ha
        simp only at ha
        split
        · exact ⟨a ++ [k], by simp [ha]⟩
        · exact ⟨a, ha⟩

/-- A successful `_destroy` of a key removes its resolved-cache entry (when
the cache keys are duplicate-free, as for a genuine JS object map). -/
theorem destroyGo_success_self_none (fuel : Nat) (t : Tree) (k : String) (t' : Tree)
    (hrun : destroyGo fuel t k = (.ok (), t'))
    (hnd : (t.resolved.map Prod.fst).Nodup) :
    lookupA t'.resolved k = none := by
  cases fuel with
  | zero => simp [destroyGo] at hrun
  | succ n =>
    cases hres : lookupA t.resolved k with
    | none =>
      rw [destroyGo] at hrun
      simp only [hres] at hrun
      injection hrun with h1 h2
      subst h2
      exact hres
    | some e =>
      rw [destroyGo] at hrun
      simp only [hres] at hrun
      split at hrun
      next er t1 heq => simp at hrun
      next u t1 heq =>
        have hnd1 : (t1.resolved.map Prod.fst).Nodup := by
          have hfold := foldl_seqStep_pres (fun t2 => (t2.resolved.map Prod.fst).Nodup)
            (fun t1 depName => destroyGo n t1 depName)
            (fun t2 d' h' => destroyGo_nodup n t2 d' h') (dependsOnKey t.registry k)
            (.ok (), t) hnd
          rw [heq] at hfold
          exact hfold
        split at hrun
        · injection hrun with h1 h2
          subst h2
          exact lookupA_eraseA_self _ _ hnd1
        · simp at hrun

/-- During `_destroy`, a resolved-cache entry is only ever removed together
with the delivery of its key's destroy event: any key cached at entry and
uncached at exit appears in the emit-log segment the call appended. -/
theorem destroyGo_removed_emitted : ∀ (fuel : Nat) (t : Tree) (k : String)
    (r : Except Err Unit) (t' : Tree),
    destroyGo fuel t k = (r, t') →
    ∀ d, (lookupA t.resolved d).isSome = true → lookupA t'.resolved d = none →
    d ∈ t'.emitLog.drop t.emitLog.length := by
  intro fuel
  induction fuel with
  | zero =>
    intro t k r t' hrun d hsome hnone
    rw [destroyGo] at hrun
    injection hrun with h1 h2
    subst h2
    rw [hnone] at hsome
    simp at hsome
  | succ n ih =>
    have hfoldRE : ∀ (l : List String) (t0 : Tree) (res : Except Err Unit) (t1 : Tree),
        l.foldl (seqStep (fun a b => destroyGo n a b)) (.ok (), t0) = (res, t1) →
        ∀ d', (lookupA t0.resolved d').isSome = true → lookupA t1.resolved d' = none →
        d' ∈ t1.emitLog.drop t0.emitLog.length := by
      intro l
      induction l with
      | nil =>
        intro t0 res t1 hf d' hs hn
        rw [List.foldl_nil] at hf
        injection hf with h1 h2
        subst h2
        rw [hn] at hs
        simp at hs
      | cons hd tl ihl =>
        intro t0 res t1 hf d' hs hn
        rw [List.foldl_cons] at hf
        rcases hstep : destroyGo n t0 hd with ⟨r1, t0'⟩
        rw [show seqStep (fun a b => destroyGo n a b) (.ok (), t0) hd = (r1, t0') from by
          simp [seqStep, hstep]] at hf
        cases r1 with
        | error e1 =>
          rw [foldl_seqStep_error] at hf
          injection hf with h1 h2
          subst h2
          exact ih t0 hd (.error e1) t0' hstep d' hs hn
        | ok u1 =>
          cases u1
          obtain ⟨a, ha⟩ := destroyGo_emit_ext n t0 hd
          rw [hstep] at ha
          simp only at ha
          obtain ⟨b, hb⟩ := foldl_seqStep_emit_ext (fun a b => destroyGo n a b)
            (fun t2 d2 => destroyGo_emit_ext n t2 d2) tl (.ok (), t0')
          rw [hf] at hb
          simp only at hb
          cases hd0 : lookupA t0'.resolved d' with
          | none =>
            have hmem := ih t0 hd (.ok ()) t0' hstep d' hs hd0
            rw [ha, List.drop_left] at hmem
            rw [hb, ha, List.append_assoc, List.drop_left]
            exact List.mem_append_left _ hmem
          | some e' =>
            have hmem := ihl t0' res t1 hf d' (by rw [hd0]; rfl) hn
            rw [hb, List.drop_left] at hmem
            rw [hb, ha, List.append_assoc, List.drop_left]
            exact List.mem_append_right _ hmem
    intro t k r t' hrun d hsome hnone
    cases hres : lookupA t.resolved k with
    | none =>
      rw [destroyGo] at hrun
      simp only [hres] at hrun
      injection hrun with h1 h2
      subst h2
      rw [hnone] at hsome
      simp at hsome
    | some e =>
      rw [destroyGo] at hrun
      simp only [hres] at hrun
      split at hrun
      next er t1 heq =>
        injection hrun with h1 h2
        subst h2
        exact hfoldRE (dependsOnKey t.registry k) t (.error er) t1 heq d hsome hnone
      next u t1 heq =>
        obtain ⟨a, ha⟩ := foldl_seqStep_emit_ext (fun a b => destroyGo n a b)
          (fun t2 d2 => destroyGo_emit_ext n t2 d2) (dependsOnKey t.registry k) (.ok (), t)
        rw [heq] at ha
        simp only at ha
        split at hrun
        · injection hrun with h1 h2
          subst h2
          simp only at hnone ⊢
          cases hd1 : lookupA t1.resolved d with
          | none =>
            have hmem := hfoldRE (dependsOnKey t.registry k) t (.ok u) t1 heq d hsome hd1
            rw [ha, List.drop_left] at hmem
            rw [ha, List.append_assoc, List.drop_left]
            exact List.mem_append_left _ hmem
          | some e' =>
            by_cases hdk : d = k
            · subst hdk
              rw [ha, List.append_assoc, List.drop_left]
              exact List.mem_append_right _ (by simp)
            · rw [lookupA_eraseA_ne _ _ _ hdk, hd1] at hnone
              simp at hnone
        · injection hrun with h1 h2
          subst h2
          exact hfoldRE (dependsOnKey t.registry k) t _ t1 heq d hsome hnone

/-- A successful dependents sweep at fixed fuel removes the resolved-cache
entry of every key in the list (for duplicate-free cache keys). -/
theorem foldl_seqStep_destroys_mem (fuel : Nat) :
    ∀ (l : List String) (t0 : Tree) (u : Unit) (t1 : Tree),
      l.foldl (seqStep (fun a b => destroyGo fuel a b)) (.ok (), t0) = (.ok u, t1) →
      (t0.resolved.map Prod.fst).Nodup →
      ∀ d, d ∈ l → lookupA t1.resolved d = none := by
  intro l
  induction l with
  | nil =>
    intro t0 u t1 hf hnd d hdmem
    simp at hdmem
  | cons hd tl ihl =>
    intro t0 u t1 hf hnd d hdmem
    rw [List.foldl_cons] at hf
    rcases hstep : destroyGo fuel t0 hd with ⟨r1, t0'⟩
    rw [show seqStep (fun a b => destroyGo fuel a b) (.ok (), t0) hd = (r1, t0') from by
      simp [seqStep, hstep]] at hf
    cases r1 with
    | error e1 =>
      rw [foldl_seqStep_error] at hf
      simp at hf
    | ok u1 =>
      cases u1
      have hnd' : (t0'.resolved.map Prod.fst).Nodup := by
        have h2 := destroyGo_nodup fuel t0 hd hnd
        rw [hstep] at h2
        simp only at h2
        exact h2
      rcases List.mem_cons.1 hdmem with hdd | hdd
      · subst hdd
        have h0 : lookupA t0'.resolved d = none :=
          destroyGo_success_self_none fuel t0 d t0' hstep hnd
        have h3 := foldl_seqStep_pres (fun t2 => lookupA t2.resolved d = none)
          (fun a b => destroyGo fuel a b)
          (fun t2 d2 hp => destroyGo_resolved_none fuel t2 d2 d hp) tl (.ok (), t0') h0
        rw [hf] at h3
        simp only at h3
        exact h3
      · exact ihl t0' () t1 hf hnd' d hdd

/-- With mutually dependent non-constant registrations for `a` and `b`
(neither cached), resolving `a` re-reaches `a` through `b` and throws
CircularDependency with path `[a, b, a]`, leaving the state unchanged. -/
theorem resolveGo_cycle2 (m : Nat) (t : Tree) (a b : String) (ca cb : Record)
    (hab : ¬a = b)
    (ha : lookupA t.registry a = some ca) (hb : lookupA t.registry b = some cb)
    (hac : ca.isConstant = false) (had : ca.dependencies = [b])
    (hbc : cb.isConstant = false) (hbd : cb.dependencies = [a])
    (hra : lookupA t.resolved a = none) (hrb : lookupA t.resolved b = none) :
    resolveGo (m + 3) t a [] = (.error (.circularDependency [a, b, a]), t) := by
  have hba : ¬b = a := fun h => hab h.symm
  have h3 : resolveGo (m + 1) t a [a, b] = (.error (.circularDependency [a, b, a]), t) := by
    rw [resolveGo]
    simp [ha, countOcc, hab, hba]
  have h2 : resolveGo (m + 2) t b [a] = (.error (.circularDependency [a, b, a]), t) := by
    rw [show m + 2 = (m + 1) + 1 from rfl, resolveGo]
    simp [hb, hrb, hbc, hbd, countOcc, pushStep, h3, hab, hba]
  rw [show m + 3 = (m + 2) + 1 from rfl, resolveGo]
  simp [ha, hra, hac, had, countOcc, pushStep, h2, hab, hba]

/-! ## The claims -/

/-- C1: in every container in which the non-singleton factory key `A` declares
a dependency on the singleton key `B` (with `A` itself uncached, as a
non-singleton always is in a reachable state), whenever resolving `B` as `A`'s
dependency succeeds — with value `b` and post-state `t1` — two successive
`resolve A` calls return two distinct `A`-instances, each freshly constructed
by re-invoking `A`'s factory (allocation ids `t1.nextId` and `t1.nextId + 1`),
and both instances were constructed with the very same `B`-instance `b` passed
as the dependency argument, `b` being exactly the cached singleton value of
`B` in the resolved cache. -/
theorem c1_distinct_instances_share_singleton
    (t : Tree) (A B : String) (cA cB : Record) (ps : List String) (he : Bool)
    (b : Val) (t1 : Tree)
    (hAB : ¬A = B)
    (hA : lookupA t.registry A = some cA)
    (hB : lookupA t.registry B = some cB)
    (hAc : cA.isConstant = false) (hAs : cA.isSingleton = false)
    (hAd : cA.dependencies = [B]) (hAv : cA.value = .fn (.classLike ps he))
    (hBs : cB.isSingleton = true)
    (hresA : lookupA t.resolved A = none)
    (hB1 : resolveGo t.registry.length t B [A] = (.ok b, t1)) :
    ∃ eB : ResolvedEntry, lookupA t1.resolved B = some eB ∧ eB.value = b ∧
      t.resolve A = (.ok (.obj t1.nextId [b] he), { t1 with nextId := t1.nextId + 1 }) ∧
      Tree.resolve { t1 with nextId := t1.nextId + 1 } A
        = (.ok (.obj (t1.nextId + 1) [b] he), { t1 with nextId := t1.nextId + 1 + 1 }) ∧
      ¬ (Val.obj t1.nextId [b] he) = .obj (t1.nextId + 1) [b] he := by
  have hlen : 0 < t.registry.length := by
    have h1 := lookupA_mem t.registry A cA hA
    have h2 := List.length_pos_of_mem h1
    simpa using h2
  obtain ⟨m, hm⟩ : ∃ m, t.registry.length = m + 1 := ⟨t.registry.length - 1, by omega⟩
  have hR : ROk t t1 := by
    have h3 := resolveGo_R t.registry.length t B [A]
    rw [hB1] at h3
    exact h3
  have hreg1 : t1.registry = t.registry := hR.1
  obtain ⟨eB, heB, heBv⟩ := resolveGo_singleton_caches m t B [A] cB b t1 hB hBs (hm ▸ hB1)
  have hresA1 : lookupA t1.resolved A = none := hR.2 A cA hA hAs hresA
  have hfirst : t.resolve A
      = (.ok (.obj t1.nextId [b] he), { t1 with nextId := t1.nextId + 1 }) := by
    unfold Tree.resolve
    rw [resolveGo]
    simp [hA, countOcc_single, hresA, hAc, hAd, hAv, hAs, pushStep, hB1]
  have hsecond : Tree.resolve { t1 with nextId := t1.nextId + 1 } A
      = (.ok (.obj (t1.nextId + 1) [b] he), { t1 with nextId := t1.nextId + 1 + 1 }) := by
    have hhit : resolveGo (m + 1) { t1 with nextId := t1.nextId + 1 } B [A]
        = (.ok b, { t1 with nextId := t1.nextId + 1 }) := by
      rw [resolveGo]
      have hBreg2 : lookupA t1.registry B = some cB := by rw [hreg1]; exact hB
      simp [hBreg2, countOcc, hAB, heB, heBv]
    unfold Tree.resolve
    rw [show ({ t1 with nextId := t1.nextId + 1 } : Tree).registry.length = m + 1 from by
      show t1.registry.length = m + 1
      rw [hreg1, hm]]
    rw [resolveGo]
    have hAreg2 : lookupA t1.registry A = some cA := by rw [hreg1]; exact hA
    simp [hAreg2, countOcc_single, hresA1, hAc, hAd, hAv, hAs, pushStep, hhit]
  refine ⟨eB, heB, heBv, hfirst, hsecond, ?_⟩
  intro h
  injection h with h1 h2 h3
  omega

/-- C1 witness: the repository's own scenario — `errorPlugin` (non-singleton)
depending on the singleton `errorParser` on a fresh container; the two
resolves yield the instances with ids 1 and 2, both holding the cached
`errorParser` instance with id 0. -/
theorem c1_distinct_instances_share_singleton_witness :
    ∃ eB : ResolvedEntry, lookupA pluginTreeMid.resolved "errorParser" = some eB ∧
      eB.value = .obj 0 [] false ∧
      pluginTree.resolve "errorPlugin"
        = (.ok (.obj pluginTreeMid.nextId [.obj 0 [] false] false),
           { pluginTreeMid with nextId := pluginTreeMid.nextId + 1 }) ∧
      Tree.resolve { pluginTreeMid with nextId := pluginTreeMid.nextId + 1 } "errorPlugin"
        = (.ok (.obj (pluginTreeMid.nextId + 1) [.obj 0 [] false] false),
           { pluginTreeMid with nextId := pluginTreeMid.nextId + 1 + 1 }) ∧
      ¬ (Val.obj pluginTreeMid.nextId [.obj 0 [] false] false)
          = .obj (pluginTreeMid.nextId + 1) [.obj 0 [] false] false :=
  c1_distinct_instances_share_singleton pluginTree "errorPlugin" "errorParser"
    ⟨["errorParser"], false, false, .fn (.classLike ["errorParser"] false)⟩
    ⟨[], false, true, .fn (.classLike [] false)⟩
    ["errorParser"] false (.obj 0 [] false) pluginTreeMid
    (by decide) rfl rfl rfl rfl rfl rfl rfl rfl rfl

/-- C2: once a key is registered and present in the resolved cache, a
subsequent resolve of that key returns exactly the cached value and leaves the
container state untouched — in particular no factory invocation (no fresh
allocation, `nextId` unchanged) and no re-resolution of its dependencies
(caches unchanged).  This holds for as long as the entry is in the cache,
i.e. until the key is destroyed or re-registered. -/
theorem c2_singleton_cache_hit (t : Tree) (key : String) (config : Record) (r : ResolvedEntry)
    (hreg : lookupA t.registry key = some config)
    (hres : lookupA t.resolved key = some r) :
    t.resolve key = (.ok r.value, t) := by
  unfold Tree.resolve
  rw [resolveGo]
  simp only [List.nil_append, hreg, hres, countOcc_single]
  norm_num

/-- C2 witness: the cached `errorParser` singleton is returned as-is on a
second resolve, with the container unchanged. -/
theorem c2_singleton_cache_hit_witness :
    parserCached.resolve "errorParser" = (.ok (.obj 0 [] false), parserCached) :=
  c2_singleton_cache_hit parserCached "errorParser"
    ⟨[], false, true, .fn (.classLike [] false)⟩ ⟨.obj 0 [] false, .obj 0 [] false⟩ rfl rfl

/-- C3: registering keys with `aggregateOn` does *not* synthesize a roll-up
aggregator — line 204 of Tree.ts calls
`aggregateOn.forEach(aggregateOn, aggregateKey => ...)`, passing the
normalized *array itself* as `Array.prototype.forEach`'s callback argument, so
the engine throws a TypeError on every registration with a truthy
`aggregateOn`, after the registering key's record was installed and before any
aggregator is created.  Registering `k1` and then `k2` with
`aggregateOn: "agg"` therefore throws twice, `"agg"` is never registered, and
resolving `"agg"` fails with UnregisteredDependency instead of returning the
roll-up mapping the spec describes. -/
theorem c3_aggregateOn_typeError :
    (emptyTree.register "k1" (.fn (.classLike [] false))
        (.plain { aggregateOn := .single "agg" })).1
      = .error (.typeError "aggregateOn.forEach: callback is not a function") ∧
    lookupA (emptyTree.register "k1" (.fn (.classLike [] false))
        (.plain { aggregateOn := .single "agg" })).2.registry "k1"
      = some ⟨[], false, false, .fn (.classLike [] false)⟩ ∧
    lookupA (emptyTree.register "k1" (.fn (.classLike [] false))
        (.plain { aggregateOn := .single "agg" })).2.registry "agg" = none ∧
    ((emptyTree.register "k1" (.fn (.classLike [] false))
        (.plain { aggregateOn := .single "agg" })).2.register
        "k2" (.fn (.classLike [] false)) (.plain { aggregateOn := .single "agg" })).1
      = .error (.typeError "aggregateOn.forEach: callback is not a function") ∧
    (((emptyTree.register "k1" (.fn (.classLike [] false))
        (.plain { aggregateOn := .single "agg" })).2.register
        "k2" (.fn (.classLike [] false)) (.plain { aggregateOn := .single "agg" })).2.resolve
        "agg").1
      = .error (.unregisteredDependency "agg" ["agg"]) :=
  ⟨rfl, rfl, rfl, rfl, rfl⟩

/-- C4: when `A` is registered with a dependency on `B` and `B` with a
dependency on `A` (factories, neither cached), resolving either key throws
CircularDependency; the reported path contains the repeated key end-to-end:
`A, B, A` in that order when resolving `A`, symmetrically `B, A, B`, and the
error message renders that full path; no value is produced and the container
is unchanged. -/
theorem c4_circular_dependency (t : Tree) (cA cB : Record)
    (hA : lookupA t.registry "A" = some cA) (hB : lookupA t.registry "B" = some cB)
    (hAc : cA.isConstant = false) (hAd : cA.dependencies = ["B"])
    (hBc : cB.isConstant = false) (hBd : cB.dependencies = ["A"])
    (hrA : lookupA t.resolved "A" = none) (hrB : lookupA t.resolved "B" = none) :
    t.resolve "A" = (.error (.circularDependency ["A", "B", "A"]), t) ∧
    t.resolve "B" = (.error (.circularDependency ["B", "A", "B"]), t) ∧
    errMessage (.circularDependency ["A", "B", "A"]) =
      "Circular dependency detected! Please check the following dependencies to correct the problem\n    A -> B -> A" := by
  have hlen : 2 ≤ t.registry.length :=
    two_registered_length t.registry "A" "B" cA cB (by decide) hA hB
  obtain ⟨m, hm⟩ : ∃ m, t.registry.length + 1 = m + 3 := ⟨t.registry.length - 2, by omega⟩
  refine ⟨?_, ?_, rfl⟩
  · unfold Tree.resolve
    rw [hm]
    exact resolveGo_cycle2 m t "A" "B" cA cB (by decide) hA hB hAc hAd hBc hBd hrA hrB
  · unfold Tree.resolve
    rw [hm]
    exact resolveGo_cycle2 m t "B" "A" cB cA (by decide) hB hA hBc hBd hAc hAd hrB hrA

/-- C4 witness: the mutual `A`/`B` cycle on a concrete container. -/
theorem c4_circular_dependency_witness :
    treeAB.resolve "A" = (.error (.circularDependency ["A", "B", "A"]), treeAB) ∧
    treeAB.resolve "B" = (.error (.circularDependency ["B", "A", "B"]), treeAB) ∧
    errMessage (.circularDependency ["A", "B", "A"]) =
      "Circular dependency detected! Please check the following dependencies to correct the problem\n    A -> B -> A" :=
  c4_circular_dependency treeAB
    ⟨["B"], false, false, .fn (.classLike ["B"] false)⟩
    ⟨["A"], false, false, .fn (.classLike ["A"] false)⟩
    rfl rfl rfl rfl rfl rfl rfl rfl

/-- C5: resolving an unregistered key `x` — whether directly (empty requester
chain) or reached as a dependency with requester chain `p` — throws
UnregisteredDependency carrying the full chain extended by `x`, so the
reported path ends in `x`; no value is returned and the state is unchanged. -/
theorem c5_unregistered_dependency (t : Tree) (x : String) (p : List String) (fuel : Nat)
    (hx : lookupA t.registry x = none) :
    resolveGo (fuel + 1) t x p = (.error (.unregisteredDependency x (p ++ [x])), t) ∧
    t.resolve x = (.error (.unregisteredDependency x [x]), t) ∧
    (p ++ [x]).getLast? = some x := by
  refine ⟨?_, ?_, ?_⟩
  · rw [resolveGo]
    simp [hx]
  · unfold Tree.resolve
    rw [resolveGo]
    simp [hx]
  · simp

/-- C5 witness: the unregistered key `missing`, as a direct resolve and as a
dependency reached from `errorParser`. -/
theorem c5_unregistered_dependency_witness :
    resolveGo 1 parserCached "missing" ["errorParser"]
        = (.error (.unregisteredDependency "missing" ["errorParser", "missing"]), parserCached) ∧
    parserCached.resolve "missing"
        = (.error (.unregisteredDependency "missing" ["missing"]), parserCached) ∧
    (["errorParser"] ++ ["missing"]).getLast? = some "missing" :=
  c5_unregistered_dependency parserCached "missing" ["errorParser"] 0 rfl

/-- C6 counterexample: the claim fails as stated.  In `cascadeTreeNoEmit` the
key `K` has a resolved-cache entry, the registered key `D` lists `K` in its
dependencies and is also cached — yet the registered classes (like the
repository's own `TestPlugin`) have no emitter methods, so `destroy(K)`
reaches `context.emit('destroy')` on `D`'s plain construction context, throws
a TypeError, and removes *neither* cache entry. -/
theorem c6_cascade_counterexample :
    (cascadeTreeNoEmit.destroy (some "K")).1
        = .error (.typeError "context.emit is not a function") ∧
    ((cascadeTreeNoEmit.destroy (some "K")).2).resolved = cascadeTreeNoEmit.resolved ∧
    lookupA cascadeTreeNoEmit.resolved "K" = some ⟨.obj 0 [] false, .obj 0 [] false⟩ ∧
    lookupA cascadeTreeNoEmit.resolved "D"
        = some ⟨.obj 1 [.obj 0 [] false] false, .obj 1 [.obj 0 [] false] false⟩ ∧
    lookupA cascadeTreeNoEmit.registry "D"
        = some ⟨["K"], false, true, .fn (.classLike ["K"] false)⟩ :=
  ⟨rfl, rfl, rfl, rfl, rfl⟩

/-- C6 (amended): for every container state — with duplicate-free cache keys,
as for a genuine JS object map — in which the nonempty key `K` has a
resolved-cache entry and a registered key `D` (distinct from `K` and itself
nonempty: the source's truthiness filter at Tree.ts line 426 skips a dependent
named `""`) lists `K` in its dependency list and also has a resolved-cache
entry, if `destroy(K)` completes without error (per C7 this is the proviso
that the cached construction contexts support the destroy-event hooks), then
it removes `D`'s cache entry strictly before removing `K`'s: the destroy
events — each delivered at the moment its key's entry is deleted — come out
as `old-log ++ l1 ++ [K]` with `D`'s event inside `l1`; after the call both
cache entries are gone while the registry (hence both registration records) is
preserved verbatim, so a subsequent resolution of either key cannot hit the
cache and reconstructs from scratch. -/
theorem c6_cascade_order_amended (t : Tree) (K D : String) (eK eD : ResolvedEntry) (cD : Record)
    (hK0 : ¬K = "") (hD0 : ¬D = "") (hDK : ¬D = K)
    (hnd : (t.resolved.map Prod.fst).Nodup)
    (hK : lookupA t.resolved K = some eK)
    (hDreg : lookupA t.registry D = some cD)
    (hdep : cD.dependencies.contains K = true)
    (hD : lookupA t.resolved D = some eD)
    (hok : (t.destroy (some K)).1 = .ok ()) :
    lookupA ((t.destroy (some K)).2).resolved K = none ∧
    lookupA ((t.destroy (some K)).2).resolved D = none ∧
    ((t.destroy (some K)).2).registry = t.registry ∧
    ∃ l1, ((t.destroy (some K)).2).emitLog = t.emitLog ++ l1 ++ [K] ∧ D ∈ l1 := by
  have htr : jsTruthyKey (some K) = true := by simp [jsTruthyKey, hK0]
  have hdes : t.destroy (some K) = destroyGo (t.registry.length + 1) t K := by
    simp [Tree.destroy, htr]
  rw [hdes] at hok ⊢
  have hregpres := destroyGo_registry (t.registry.length + 1) t K
  rcases hrun : destroyGo (t.registry.length + 1) t K with ⟨r, t'⟩
  rw [hrun] at hok hregpres
  simp only at hok hregpres ⊢
  subst hok
  have hrunOrig := hrun
  have hmemD : D ∈ dependsOnKey t.registry K := by
    unfold dependsOnKey
    refine List.mem_filter.2 ⟨List.mem_filter.2 ⟨lookupA_mem _ _ _ hDreg, ?_⟩, ?_⟩
    · simp only [hDreg]
      exact hdep
    · simp [hD0]
  rw [destroyGo] at hrun
  simp only [hK] at hrun
  split at hrun
  next er t1 heq => simp at hrun
  next u t1 heq =>
    have hDnone1 : lookupA t1.resolved D = none :=
      foldl_seqStep_destroys_mem t.registry.length (dependsOnKey t.registry K)
        t u t1 heq hnd D hmemD
    have hnd1 : (t1.resolved.map Prod.fst).Nodup := by
      have hp := foldl_seqStep_pres (fun t2 => (t2.resolved.map Prod.fst).Nodup)
        (fun x y => destroyGo t.registry.length x y)
        (fun t2 d2 h2 => destroyGo_nodup t.registry.length t2 d2 h2)
        (dependsOnKey t.registry K) (.ok (), t) hnd
      rw [heq] at hp
      simp only at hp
      exact hp
    obtain ⟨a, ha⟩ := foldl_seqStep_emit_ext (fun x y => destroyGo t.registry.length x y)
      (fun t2 d2 => destroyGo_emit_ext t.registry.length t2 d2)
      (dependsOnKey t.registry K) (.ok (), t)
    rw [heq] at ha
    simp only at ha
    split at hrun
    · injection hrun with h1 h2
      subst h2
      have hDgone : lookupA (eraseA t1.resolved K) D = none := by
        rw [lookupA_eraseA_ne _ _ _ hDK]
        exact hDnone1
      refine ⟨?_, ?_, ?_, a, ?_, ?_⟩
      · show lookupA (eraseA t1.resolved K) K = none
        exact lookupA_eraseA_self _ _ hnd1
      · exact hDgone
      · exact hregpres
      · show t1.emitLog ++ [K] = t.emitLog ++ a ++ [K]
        rw [ha]
      · have hemD := destroyGo_removed_emitted (t.registry.length + 1) t K (.ok ()) _
          hrunOrig D (by rw [hD]; rfl) hDgone
        simp only at hemD
        rw [ha, List.append_assoc, List.drop_left] at hemD
        rcases List.mem_append.1 hemD with hin | hin
        · exact hin
        · exact absurd (List.mem_singleton.1 hin) hDK
    · simp at hrun

/-- C6 witness: the concrete cascade — singletons `K` and `D(K)` with
emitter-capable contexts, both cached — where destroying `K` tears down `D`
first (`l1 = ["D"]`), clears both entries and keeps both registrations. -/
theorem c6_cascade_order_amended_witness :
    lookupA ((cascadeTree.destroy (some "K")).2).resolved "K" = none ∧
    lookupA ((cascadeTree.destroy (some "K")).2).resolved "D" = none ∧
    ((cascadeTree.destroy (some "K")).2).registry = cascadeTree.registry ∧
    ∃ l1, ((cascadeTree.destroy (some "K")).2).emitLog
        = cascadeTree.emitLog ++ l1 ++ ["K"] ∧ "D" ∈ l1 :=
  c6_cascade_order_amended cascadeTree "K" "D"
    ⟨.obj 0 [] true, .obj 0 [] true⟩
    ⟨.obj 1 [.obj 0 [] true] true, .obj 1 [.obj 0 [] true] true⟩
    ⟨["K"], false, true, .fn (.classLike ["K"] true)⟩
    (by decide) (by decide) (by decide) (by decide) rfl rfl rfl rfl rfl

/-- C7 counterexample: destroy does *not* always complete without error — on a
resolved constant singleton the teardown at Tree.ts line 435 calls
`context.emit('destroy')` on the plain-object context `{}`, which has no
`emit`, so the engine throws a TypeError (and the cache entry survives). -/
theorem c7_counterexample :
    (constSingletonTree.destroy (some "c")).1
        = .error (.typeError "context.emit is not a function") ∧
    lookupA constSingletonTree.resolved "c" = some ⟨.obj 0 [] false, .prim 5⟩ ∧
    ((constSingletonTree.destroy (some "c")).2).resolved = constSingletonTree.resolved :=
  ⟨rfl, rfl, rfl⟩

/-- C7 amended: destroy on a key with no resolved-cache entry is an error-free
no-op that changes nothing, for every container state and every nonempty key
(an empty key selects the destroy-all branch instead); destroy on a *resolved*
key, however, can raise a TypeError when a cached construction context lacks
the emitter teardown methods. -/
theorem c7_destroy_unresolved_noop (t : Tree) (k : String) (hk : ¬k = "")
    (h : lookupA t.resolved k = none) :
    t.destroy (some k) = (.ok (), t) :=
  destroy_unresolved_noop t k hk h

/-- C7 witness: destroying the never-resolved key `z` is a no-op. -/
theorem c7_destroy_unresolved_noop_witness :
    ¬("z" = "") ∧ emptyTree.destroy (some "z") = (.ok (), emptyTree) :=
  ⟨by decide, c7_destroy_unresolved_noop emptyTree "z" (by decide) rfl⟩

/-- C8 counterexample: registering a non-callable over an already-resolved key
does throw NotAFactory, but it does *not* leave the container as it was — the
overwrite step at Tree.ts line 177 destroys the key's resolved-cache entry
before the factory check at lines 182-187 throws. -/
theorem c8_counterexample :
    (resolvedSingletonTree.register "a" (.notCallable (.prim 7)) .undef).1
        = .error (.notAFactory "a") ∧
    (resolvedSingletonTree.register "a" (.notCallable (.prim 7)) .undef).2.resolved = [] ∧
    resolvedSingletonTree.resolved = [("a", ⟨.obj 0 [] true, .obj 0 [] true⟩)] :=
  ⟨rfl, rfl, rfl⟩

/-- C8 amended: for a nonempty key with no resolved-cache entry and a plain
(or absent) options argument not setting `constant`, registering a
non-callable value fails with NotAFactory — whose message names the offending
key — installs no registration record and leaves the container state exactly
as it was.  (If the key was already registered *and resolved*, the
overwrite-destroy step tears down its cache entries before the error surfaces,
so the state-preservation part of the original claim fails there; a non-plain
options argument fails earlier with InvalidOptions.) -/
theorem c8_notAFactory (t : Tree) (k : String) (v : Val) (oa : OptsArg) (o : Opts)
    (hk : ¬k = "") (hres : lookupA t.resolved k = none)
    (hno : normalizeOpts oa = some o) (hc : o.constant = false) :
    t.register k (.notCallable v) oa = (.error (.notAFactory k), t) ∧
    errMessage (.notAFactory k) = "Cannot register non-function as factory: " ++ k := by
  constructor
  · unfold Tree.register
    rw [hno]
    simp only
    by_cases hrg : t.isRegistered k
    · rw [if_pos hrg, destroy_unresolved_noop t k hk hres]
      simp [hc, RegValue.isFunction]
    · rw [if_neg hrg]
      simp [hc, RegValue.isFunction]
  · rfl

/-- C8 witness: registering the non-callable `7` under the fresh key `b`. -/
theorem c8_notAFactory_witness :
    emptyTree.register "b" (.notCallable (.prim 7)) .undef
        = (.error (.notAFactory "b"), emptyTree) ∧
    errMessage (.notAFactory "b") = "Cannot register non-function as factory: " ++ "b" :=
  c8_notAFactory emptyTree "b" (.prim 7) .undef {} (by decide) rfl rfl rfl

/-- C9: `isRegistered key` is true exactly when a registration record exists
for the key, and `destroy` (single-key or destroy-all) never removes
registration records — the registry is preserved verbatim by every destroy. -/
theorem c9_isRegistered_iff_record (t : Tree) (k : String) (k' : Option String) :
    (t.isRegistered k = true ↔ (lookupA t.registry k).isSome = true) ∧
    ((t.destroy k').2).registry = t.registry :=
  ⟨Iff.rfl, destroy_registry t k'⟩

/-- C9 witness: the resolved singleton container keeps its registration for
`a` across a destroy, and `isRegistered` agrees with record existence. -/
theorem c9_isRegistered_iff_record_witness :
    (resolvedSingletonTree.isRegistered "a" = true ↔
      (lookupA resolvedSingletonTree.registry "a").isSome = true) ∧
    ((resolvedSingletonTree.destroy (some "a")).2).registry
      = resolvedSingletonTree.registry :=
  c9_isRegistered_iff_record resolvedSingletonTree "a" (some "a")

/-- C10 counterexample: the claim's universal "destroy with a falsy key clears
every resolved-cache entry" fails — on a container holding a resolved constant
singleton, `destroy("")` takes the destroy-all branch but the teardown throws
(no `emit` on the plain context) and no cache entry is cleared. -/
theorem c10_counterexample :
    (constSingletonTree.destroy (some "")).1
        = .error (.typeError "context.emit is not a function") ∧
    ((constSingletonTree.destroy (some "")).2).resolved = constSingletonTree.resolved ∧
    ¬ constSingletonTree.resolved = [] := by
  refine ⟨rfl, rfl, ?_⟩
  rw [show constSingletonTree.resolved
      = [("c", (⟨.obj 0 [] false, .prim 5⟩ : ResolvedEntry))] from rfl]
  exact List.cons_ne_nil _ _

/-- C10 amended: `destroy` with the falsy empty-string key behaves identically
to `destroy()` with no key — the destroy-all branch — on *every* container
state; and when the cached contexts support the teardown hooks this destroys
every registered key: re-registering the key `""` (which internally calls
`destroy("")`) tears down every cached singleton, including the unrelated
cached `s`, not just the entry being overwritten. -/
theorem c10_empty_key_destroys_all :
    (∀ t : Tree, t.destroy (some "") = t.destroy none) ∧
    lookupA emptyKeyTree.resolved "s" = some ⟨.obj 1 [] true, .obj 1 [] true⟩ ∧
    (emptyKeyTree.register "" (.fn (.classLike [] true)) .undef).1 = .ok () ∧
    (emptyKeyTree.register "" (.fn (.classLike [] true)) .undef).2.resolved = [] ∧
    (emptyKeyTree.register "" (.fn (.classLike [] true)) .undef).2.emitLog = ["", "s"] :=
  ⟨fun _ => rfl, rfl, rfl, rfl, rfl⟩

end TreeSpec
